import Mathlib

/-!
Verification of the chain-simulation core of the zuma-game repository.

The chain logic (`src/game/BallChain.js`) performs only field arithmetic on
token distances (addition, multiplication, division by constants), so it is
embedded over `ℚ`, which models that arithmetic exactly.  The geometric part
(`src/game/Renderer.js` `GamePath.getPointAt`, and `BallChain.checkCollision`)
uses square roots and `atan2`/`cos`/`sin`, so it is embedded over `ℝ`.
`Math.random()` draws are modelled as oracle parameters: each function that
consumes randomness receives the outcome of its draw (a palette color) as an
explicit argument; no other behaviour depends on the random stream.
-/

/-- The fixed four-color palette `['#ff0055', '#00f2ff', '#00ff00', '#ffff00']`
(red, cyan, green, yellow).  The hex strings of the source are compared only
for equality, so the palette is modelled as an enumeration. -/
inductive Color where
  | red
  | cyan
  | green
  | yellow
deriving DecidableEq, Inhabited, Repr

/-- A token of the chain: `{ id, color, distance, radius }` as pushed by
`preSpawnBalls`, `spawnBall` and `insertBall` in `BallChain.js`. -/
structure Ball where
  id : Nat
  color : Color
  distance : ℚ
  radius : ℚ
deriving DecidableEq, Inhabited, Repr

/-- A 2D sample point of the path polyline (`this.points` entries). -/
structure Pt where
  x : ℝ
  y : ℝ

/-- The precomputed polyline state of `GamePath` in `Renderer.js`: sample points,
per-segment lengths and total length (filled in by `generateSpiral`). -/
structure GamePath where
  points : List Pt
  segmentLengths : List ℝ
  totalLength : ℝ

/-- `Math.atan2 y x`, modelled as the argument of the complex number
`x + y i`. -/
noncomputable def atan2 (y x : ℝ) : ℝ := Complex.arg ⟨x, y⟩

open scoped Classical in
/-- The linear walk of `GamePath.getPointAt` (case 3): accumulate segment lengths
until the segment containing `distance` is found, then interpolate linearly;
the fallback past the last segment returns the last point (the source returns
the bare point object there, whose `angle` field is absent; we use `0`). -/
noncomputable def findSegment (pts : List Pt) (distance : ℝ) :
    ℝ → Nat → List ℝ → Pt × ℝ
  | _, _, [] => (pts.getD (pts.length - 1) ⟨0, 0⟩, 0)
  | currentDist, i, segLen :: rest =>
    if distance ≤ currentDist + segLen then
      let remaining := distance - currentDist
      let t := remaining / segLen
      let p1 := pts.getD i ⟨0, 0⟩
      let p2 := pts.getD (i + 1) ⟨0, 0⟩
      (⟨p1.x + (p2.x - p1.x) * t, p1.y + (p2.y - p1.y) * t⟩,
        atan2 (p2.y - p1.y) (p2.x - p1.x))
    else
      findSegment pts distance (currentDist + segLen) (i + 1) rest

open scoped Classical in
/-- `GamePath.getPointAt(distance)` from `Renderer.js`: backward extrapolation for
`distance < 0`, clamp to the last point for `distance >= totalLength`, and a
linear walk with interpolation otherwise. -/
noncomputable def getPointAt (p : GamePath) (distance : ℝ) : Pt × ℝ :=
  if distance < 0 then
    let p1 := p.points.getD 0 ⟨0, 0⟩
    let p2 := p.points.getD 1 ⟨0, 0⟩
    let angle := atan2 (p2.y - p1.y) (p2.x - p1.x)
    (⟨p1.x + Real.cos angle * distance, p1.y + Real.sin angle * distance⟩, angle)
  else if p.totalLength ≤ distance then
    let last := p.points.getD (p.points.length - 1) ⟨0, 0⟩
    let prev := p.points.getD (p.points.length - 2) ⟨0, 0⟩
    (last, atan2 (last.y - prev.y) (last.x - prev.x))
  else
    findSegment p.points distance 0 0 p.segmentLengths

/-- A projectile as consumed by `checkCollision` / `insertBall`:
`{ x, y, radius, color }`. -/
structure Projectile where
  x : ℝ
  y : ℝ
  radius : ℝ
  color : Color

/-- The state of `BallChain`.  `balls` is the ordered token array; the other
fields are the scalar state set up by the constructor. -/
structure BallChain where
  path : GamePath
  balls : List Ball
  ballRadius : ℚ
  speed : ℚ
  colors : List Color
  spawnTimer : ℚ
  spawnInterval : ℚ
  maxBalls : Nat
  spawnedCount : Nat
  nextId : Nat

/-- `preSpawnBalls(count)`: pushes `count` balls at distance 0; the random
color draw of each iteration is supplied by the `colorsChosen` oracle list
(one entry per iteration). -/
def preSpawnBalls (c : BallChain) (colorsChosen : List Color) : BallChain :=
  colorsChosen.foldl
    (fun c col =>
      { c with
        balls := c.balls ++ [⟨c.nextId, col, 0, c.ballRadius⟩]
        nextId := c.nextId + 1
        spawnedCount := c.spawnedCount + 1 })
    c

/-- The `BallChain` constructor: radius 18, speed `50 + level*5`, spawn
interval `diameter / speed`, cap `20 + level*10`, then `preSpawnBalls(1)`
(whose single random color draw is the `initialColor` oracle). -/
def BallChain.init (path : GamePath) (level : Nat) (initialColor : Color) : BallChain :=
  preSpawnBalls
    { path := path
      balls := []
      ballRadius := 18
      speed := 50 + (level : ℚ) * 5
      colors := [.red, .cyan, .green, .yellow]
      spawnTimer := 0
      spawnInterval := (18 * 2) / (50 + (level : ℚ) * 5)
      maxBalls := 20 + level * 10
      spawnedCount := 0
      nextId := 0 }
    [initialColor]

/-- The closest/second-closest scan of `spawnBall`: fold over the ball array
tracking the two balls of minimal `|distance|`, exactly as the source loop
updates its `closest`/`secondClosest` variables. -/
def findClosestPair (l : List Ball) : Option Ball × Option Ball :=
  l.foldl
    (fun acc ball =>
      match acc with
      | (none, s) => (some ball, s)
      | (some cl, s) =>
        if |ball.distance| < |cl.distance| then (some ball, some cl)
        else
          match s with
          | none => (some cl, some ball)
          | some sc =>
            if |ball.distance| < |sc.distance| then (some cl, some ball)
            else (some cl, some sc))
    (none, none)

/-- `spawnBall()`: the spawn distance is `closest.distance - diameter` (or 0
when the chain is empty); the color-selection code (random draws plus the
bounded resampling loop against `closest.color`) only determines which
palette color comes out, so its outcome is the `chosenColor` oracle. -/
def spawnBall (c : BallChain) (chosenColor : Color) : BallChain :=
  let closest := (findClosestPair c.balls).1
  let spawnDistance : ℚ :=
    match closest with
    | some cb => cb.distance - c.ballRadius * 2
    | none => 0
  { c with
    balls := c.balls ++ [⟨c.nextId, chosenColor, spawnDistance, c.ballRadius⟩]
    nextId := c.nextId + 1
    spawnedCount := c.spawnedCount + 1 }

/-- Step 1 of `update`: accumulate `dt` into the spawn timer while under the
cap, spawn one ball and reset the timer once the interval is reached. -/
def spawnStep (c : BallChain) (dt : ℚ) (chosenColor : Color) : BallChain :=
  if c.spawnedCount < c.maxBalls then
    let c1 := { c with spawnTimer := c.spawnTimer + dt }
    if c1.spawnInterval ≤ c1.spawnTimer then
      { spawnBall c1 chosenColor with spawnTimer := 0 }
    else c1
  else c

/-- Insertion step of the stable sort modelling
`this.balls.sort((a, b) => a.distance - b.distance)`. -/
def insertSorted (b : Ball) : List Ball → List Ball
  | [] => [b]
  | a :: rest =>
    if a.distance ≤ b.distance then a :: insertSorted b rest
    else b :: a :: rest

/-- `this.balls.sort((a, b) => a.distance - b.distance)`: JavaScript `sort`
is a stable comparison sort, modelled by stable insertion sort (all stable
sorts agree on the result). -/
def sortByDistance (l : List Ball) : List Ball := l.foldr insertSorted []

/-- Step 2 of `update` (segmentation), from the first ball onward: a ball
joins the current segment iff its gap to the previous ball is at most
`diameter + epsilon` (`thr`); otherwise a new segment starts. -/
def segsFrom (thr : ℚ) : Ball → List Ball → List (List Ball)
  | b, [] => [[b]]
  | b, b2 :: rest =>
    match segsFrom thr b2 rest with
    | [] => [[b]]
    | s :: ss =>
      if b2.distance - b.distance ≤ thr then (b :: s) :: ss
      else [b] :: s :: ss

/-- Segmentation of the whole (sorted) ball list. -/
def segmentBalls (thr : ℚ) : List Ball → List (List Ball)
  | [] => []
  | b :: rest => segsFrom thr b rest

/-- Motion of the segments with index `> 0` (step 3 of `update`).  The source
mutates balls in place and reads `prevTail.distance` after the previous
segment has already moved, so the recursion carries the already-moved tail
ball of the previous segment. -/
def moveRest (attr diam dt : ℚ) : Ball → List (List Ball) → List (List Ball)
  | _, [] => []
  | prevTail, seg :: rest =>
    match seg with
    | [] => [] :: moveRest attr diam dt prevTail rest
    | h :: t =>
      let gap := h.distance - prevTail.distance - diam
      let pullStrength := min (gap / 50) (3 / 2)
      let v := -(attr * (1 / 2 + pullStrength))
      let mv := fun b : Ball => { b with distance := b.distance + v * dt }
      (mv h :: t.map mv) :: moveRest attr diam dt (mv (t.getLastD h)) rest

/-- Step 3 of `update`: the first segment advances at the base speed, the
rest are handled by `moveRest`.  Segments produced by `segmentBalls` are
never empty, so the `[]` branches are unreachable. -/
def moveSegments (speed attr diam dt : ℚ) : List (List Ball) → List (List Ball)
  | [] => []
  | seg :: rest =>
    match seg with
    | [] => [] :: moveRest attr diam dt default rest
    | h :: t =>
      let mv := fun b : Ball => { b with distance := b.distance + speed * dt }
      (mv h :: t.map mv) :: moveRest attr diam dt (mv (t.getLastD h)) rest

/-- Step 4 of `update` (overlap resolution), walking from the second ball on:
clamp each ball forward to `predecessor.distance + diameter` when it
overlaps, the already-clamped ball becoming the next predecessor. -/
def resolveOverlap (diam : ℚ) : Ball → List Ball → List Ball
  | _, [] => []
  | prev, b :: rest =>
    let b2 :=
      if b.distance < prev.distance + diam then
        { b with distance := prev.distance + diam }
      else b
    b2 :: resolveOverlap diam b2 rest

/-- Step 4 of `update` for the whole ball list. -/
def resolveOverlaps (diam : ℚ) : List Ball → List Ball
  | [] => []
  | b :: rest => b :: resolveOverlap diam b rest

/-- The inner `while` of the match scan (step 5 of `update`): number of
successors that continue the run of `color`, each in contact with its
predecessor (`gap <= diameter + epsilon`, i.e. `<= thr`). -/
def countRun (color : Color) (thr : ℚ) : Ball → List Ball → Nat
  | _, [] => 0
  | prev, b :: rest =>
    if b.color = color ∧ b.distance - prev.distance ≤ thr then
      countRun color thr b rest + 1
    else 0

/-- The outer `while` of the match scan, with explicit fuel (every iteration
consumes at least one ball, so fuel `l.length` suffices): runs of length at
least 3 are spliced out and their length recorded (the callback invocation),
shorter runs are kept and skipped. -/
def matchScanFuel (thr : ℚ) : Nat → List Ball → List Ball × List Nat
  | 0, l => (l, [])
  | _, [] => ([], [])
  | fuel + 1, b :: rest =>
    let k := countRun b.color thr b rest
    if 3 ≤ k + 1 then
      let p := matchScanFuel thr fuel (rest.drop k)
      (p.1, (k + 1) :: p.2)
    else
      let p := matchScanFuel thr fuel (rest.drop k)
      (b :: rest.take k ++ p.1, p.2)

/-- Step 5 of `update`: the whole-chain match scan.  Returns the surviving
balls and the list of counts passed to the `onMatch` callback, in call
order. -/
def matchScan (thr : ℚ) (l : List Ball) : List Ball × List Nat :=
  matchScanFuel thr l.length l

/-- `BallChain.update(dt, onMatch)`: spawn step, early return on an empty
chain, sort, segmentation, motion, overlap resolution, match scan.  The
second component collects the `onMatch(count)` invocations. -/
def update (c : BallChain) (dt : ℚ) (chosenColor : Color) : BallChain × List Nat :=
  let c1 := spawnStep c dt chosenColor
  if c1.balls.length = 0 then (c1, [])
  else
    let diameter := c1.ballRadius * 2
    let epsilon : ℚ := 2
    let attractionSpeed := c1.speed * 4
    let sorted := sortByDistance c1.balls
    let segments := segmentBalls (diameter + epsilon) sorted
    let moved := (moveSegments c1.speed attractionSpeed diameter dt segments).flatten
    let resolved := resolveOverlaps diameter moved
    let scanned := matchScan (diameter + epsilon) resolved
    ({ c1 with balls := scanned.1 }, scanned.2)

/-- `hasReachedEnd()`: false on an empty chain, otherwise the last ball of
the (distance-ascending) array is compared against the path's total
length. -/
def hasReachedEnd (c : BallChain) : Prop :=
  match c.balls.getLast? with
  | none => False
  | some head => c.path.totalLength ≤ (head.distance : ℝ)

/-- `isEmpty()`. -/
def BallChain.isEmpty (c : BallChain) : Prop := c.balls.length = 0

/-- `hasFinishedSpawning()`. -/
def hasFinishedSpawning (c : BallChain) : Prop := c.maxBalls ≤ c.spawnedCount

/-- The collision record `{ index, ball, x, y }` returned by
`checkCollision`. -/
structure HitInfo where
  index : Nat
  ball : Ball
  x : ℝ
  y : ℝ

open scoped Classical in
/-- The scan loop of `checkCollision`, carrying the current index: Euclidean
distance between the projectile and the ball's curve position, compared with
the sum of the radii; the first overlapping ball wins. -/
noncomputable def checkCollisionFrom (path : GamePath) (p : Projectile) :
    Nat → List Ball → Option HitInfo
  | _, [] => none
  | i, b :: rest =>
    let pos := (getPointAt path (b.distance : ℝ)).1
    let dx := pos.x - p.x
    let dy := pos.y - p.y
    let dist := Real.sqrt (dx * dx + dy * dy)
    if dist < (b.radius : ℝ) + p.radius then some ⟨i, b, pos.x, pos.y⟩
    else checkCollisionFrom path p (i + 1) rest

/-- `checkCollision(projectile)`. -/
noncomputable def checkCollision (c : BallChain) (p : Projectile) : Option HitInfo :=
  checkCollisionFrom c.path p 0 c.balls

/-- `Array.splice(n, 0, b)`: insert `b` at index `n`. -/
def spliceInsert (n : Nat) (b : Ball) (l : List Ball) : List Ball :=
  l.take n ++ b :: l.drop n

/-- The forward push-apart walk of `insertBall`, from the ball at the
insertion index onward: each next ball closer than a diameter is clamped to
`previous.distance + diameter`. -/
def pushApart (diam : ℚ) : Ball → List Ball → List Ball
  | _, [] => []
  | b1, b2 :: rest =>
    let b2' :=
      if b2.distance - b1.distance < diam then
        { b2 with distance := b1.distance + diam }
      else b2
    b2' :: pushApart diam b2' rest

/-- `insertBall(projectile, hitIndex)`: a new ball with the projectile's
color at the hit ball's distance is spliced in at `hitIndex`, the balls from
`hitIndex` on are pushed apart, and `hitIndex` is returned. -/
def insertBall (c : BallChain) (projectile : Projectile) (hitIndex : Nat) :
    BallChain × Nat :=
  let hitBall := c.balls.getD hitIndex default
  let newBall : Ball := ⟨c.nextId, projectile.color, hitBall.distance, c.ballRadius⟩
  let spliced := spliceInsert hitIndex newBall c.balls
  let fixed :=
    spliced.take (hitIndex + 1) ++
      pushApart (c.ballRadius * 2) (spliced.getD hitIndex default)
        (spliced.drop (hitIndex + 1))
  ({ c with balls := fixed, nextId := c.nextId + 1 }, hitIndex)

/-- The color-only backward/forward extension loops of `checkMatches`:
number of leading balls of `l` with color `color` (no gap condition). -/
def sameColorCount (color : Color) : List Ball → Nat
  | [] => 0
  | b :: rest =>
    if b.color = color then sameColorCount color rest + 1 else 0

/-- `checkMatches(startIndex)`: 0 and no mutation when the index is out of
bounds; otherwise extend left and right from the pivot by color equality
alone, splice the run out if its length reaches 3 and return it, else leave
the chain unmodified and return 0. -/
def checkMatches (c : BallChain) (startIndex : Int) : BallChain × Nat :=
  if startIndex < 0 ∨ (c.balls.length : Int) ≤ startIndex then (c, 0)
  else
    let idx := startIndex.toNat
    let color := (c.balls.getD idx default).color
    let left := sameColorCount color ((c.balls.take idx).reverse)
    let right := sameColorCount color (c.balls.drop (idx + 1))
    let matchCount := 1 + left + right
    let start := idx - left
    if 3 ≤ matchCount then
      ({ c with balls := c.balls.take start ++ c.balls.drop (start + matchCount) },
        matchCount)
    else (c, 0)

/-- A trivial path for concrete witness chains; the chain arithmetic never
reads it. -/
def trivialPath : GamePath := ⟨[], [], 0⟩

/-- A concrete level-1-style chain around a given ball list, used by the
witness theorems. -/
def witnessChain (bs : List Ball) : BallChain :=
  ⟨trivialPath, bs, 18, 55, [.red, .cyan, .green, .yellow],
    0, 36 / 55, 30, bs.length, 100⟩

/-- Identity-relevant part of a ball (everything but the mutable
`distance`), used to state how `insertBall` shifts tokens. -/
def Ball.key (b : Ball) : Nat × Color × ℚ := (b.id, b.color, b.radius)

/-- A maximal-run candidate for the whole-chain match scan: a nonempty list
of same-color balls, each in contact with its predecessor
(`gap <= diameter + epsilon`, i.e. `<= thr`). -/
def isRun (thr : ℚ) (r : List Ball) : Prop :=
  r ≠ [] ∧ (∀ b ∈ r, b.color = (r.headD default).color) ∧
    List.Chain' (fun a b => b.distance - a.distance ≤ thr) r

/-- The junction between two adjacent runs breaks the run condition: color
change or a gap beyond the contact threshold. -/
def runBreak (thr : ℚ) (r1 r2 : List Ball) : Prop :=
  r1 = [] ∨ r2 = [] ∨ (r2.headD default).color ≠ (r1.getLastD default).color ∨
    thr < (r2.headD default).distance - (r1.getLastD default).distance

/-- A decomposition of a ball list into its maximal same-color
contact-contiguous runs. -/
def RunDecomp (thr : ℚ) (rs : List (List Ball)) : Prop :=
  (∀ r ∈ rs, isRun thr r) ∧ List.Chain' (runBreak thr) rs

/-- A two-point straight path fixture: points `(0,0)` and `(10,0)`, one
segment of length 10. -/
def samplePath : GamePath := ⟨[⟨0, 0⟩, ⟨10, 0⟩], [10], 10⟩

/-- The per-ball overlap test of `checkCollision`: Euclidean distance from
the projectile to the ball's curve position, compared with the two radii. -/
def ballHit (path : GamePath) (p : Projectile) (b : Ball) : Prop :=
  Real.sqrt
      (((getPointAt path (b.distance : ℝ)).1.x - p.x) *
          ((getPointAt path (b.distance : ℝ)).1.x - p.x) +
        ((getPointAt path (b.distance : ℝ)).1.y - p.y) *
          ((getPointAt path (b.distance : ℝ)).1.y - p.y)) <
    (b.radius : ℝ) + p.radius

/-- Claim-side restatement of the motion rule for the segments after the
first: each velocity is `-(attraction * (1/2 + min (gap/50) (3/2)))`, the gap
being measured against the previous segment's trailing token at its
already-updated distance (the source moves segments in place, in order). -/
def velsFrom (attr diam dt : ℚ) : ℚ → List (List Ball) → List ℚ
  | _, [] => []
  | prevTailDist, seg :: rest =>
    match seg with
    | [] => []
    | h :: t =>
      let gap := h.distance - prevTailDist - diam
      let v := -(attr * (1 / 2 + min (gap / 50) (3 / 2)))
      v :: velsFrom attr diam dt ((t.getLastD h).distance + v * dt) rest

/-- Claim-side velocity list for all segments: index 0 moves at the base
speed, the rest follow `velsFrom`. -/
def segVelocities (speed attr diam dt : ℚ) : List (List Ball) → List ℚ
  | [] => []
  | seg :: rest =>
    match seg with
    | [] => []
    | h :: t =>
      speed :: velsFrom attr diam dt ((t.getLastD h).distance + speed * dt) rest

lemma color_ne_pack :
    Color.red ≠ Color.cyan ∧ Color.red ≠ Color.green ∧ Color.red ≠ Color.yellow ∧
    Color.cyan ≠ Color.red ∧ Color.cyan ≠ Color.green ∧ Color.cyan ≠ Color.yellow ∧
    Color.green ≠ Color.red ∧ Color.green ≠ Color.cyan ∧ Color.green ≠ Color.yellow ∧
    Color.yellow ≠ Color.red ∧ Color.yellow ≠ Color.cyan ∧ Color.yellow ≠ Color.green := by
  refine ⟨?_, ?_, ?_, ?_, ?_, ?_, ?_, ?_, ?_, ?_, ?_, ?_⟩ <;> decide

lemma chain_resolveOverlap (diam : ℚ) (l : List Ball) :
    ∀ prev : Ball,
      List.Chain (fun a b => a.distance + diam ≤ b.distance) prev
        (resolveOverlap diam prev l) := by
  induction l with
  | nil => intro prev; simp [resolveOverlap]
  | cons b rest ih =>
    intro prev
    simp only [resolveOverlap, List.chain_cons]
    constructor
    · split
      · simp
      · next h => simpa using le_of_not_lt h
    · exact ih _

lemma chain'_resolveOverlaps (diam : ℚ) (l : List Ball) :
    List.Chain' (fun a b => a.distance + diam ≤ b.distance)
      (resolveOverlaps diam l) := by
  cases l with
  | nil => simp [resolveOverlaps]
  | cons b rest =>
    simpa [resolveOverlaps, List.Chain'] using chain_resolveOverlap diam rest b

lemma matchScanFuel_sublist (thr : ℚ) :
    ∀ (fuel : Nat) (l : List Ball), (matchScanFuel thr fuel l).1.Sublist l := by
  intro fuel
  induction fuel with
  | zero => intro l; cases l <;> simp [matchScanFuel]
  | succ f ih =>
    intro l
    cases l with
    | nil => simp [matchScanFuel]
    | cons b rest =>
      simp only [matchScanFuel]
      split
      · exact ((ih _).trans (List.drop_sublist _ _)).trans (List.sublist_cons_self _ _)
      · refine List.Sublist.cons₂ b ?_
        have h1 :
            (rest.take (countRun b.color thr b rest) ++
              (matchScanFuel thr f (rest.drop (countRun b.color thr b rest))).1).Sublist
            (rest.take (countRun b.color thr b rest) ++
              rest.drop (countRun b.color thr b rest)) :=
          List.Sublist.append_left (ih _) _
        simpa [List.take_append_drop] using h1

lemma matchScan_sublist (thr : ℚ) (l : List Ball) :
    (matchScan thr l).1.Sublist l := matchScanFuel_sublist thr l.length l

lemma pairwise_of_chain'_trans {R : Ball → Ball → Prop}
    (htrans : ∀ a b c, R a b → R b c → R a c) (l : List Ball)
    (h : List.Chain' R l) : List.Pairwise R l := by
  letI : IsTrans Ball R := ⟨htrans⟩
  exact List.chain'_iff_pairwise.mp h

lemma pairwise_resolve_scan (diam thr : ℚ) (hdiam : 0 ≤ diam) (l : List Ball) :
    List.Pairwise (fun a b => a.distance + diam ≤ b.distance)
      (matchScan thr (resolveOverlaps diam l)).1 := by
  have hchain := chain'_resolveOverlaps diam l
  have hpair :=
    pairwise_of_chain'_trans
      (fun a b c hab hbc => by linarith) _ hchain
  exact hpair.sublist (matchScan_sublist thr _)

lemma spawnBall_ballRadius (c : BallChain) (col : Color) :
    (spawnBall c col).ballRadius = c.ballRadius := rfl

lemma spawnStep_ballRadius (c : BallChain) (dt : ℚ) (col : Color) :
    (spawnStep c dt col).ballRadius = c.ballRadius := by
  unfold spawnStep
  split
  · dsimp only
    split <;> rfl
  · rfl

lemma update_balls_shape (c : BallChain) (dt : ℚ) (col : Color) :
    (update c dt col).1.balls = (spawnStep c dt col).balls ∧
      (spawnStep c dt col).balls.length = 0 ∨
    (update c dt col).1.balls =
      (matchScan ((spawnStep c dt col).ballRadius * 2 + 2)
        (resolveOverlaps ((spawnStep c dt col).ballRadius * 2)
          ((moveSegments (spawnStep c dt col).speed ((spawnStep c dt col).speed * 4)
              ((spawnStep c dt col).ballRadius * 2) dt
              (segmentBalls ((spawnStep c dt col).ballRadius * 2 + 2)
                (sortByDistance (spawnStep c dt col).balls))).flatten))).1 := by
  by_cases h0 : (spawnStep c dt col).balls.length = 0
  · exact Or.inl ⟨by simp [update, h0], h0⟩
  · exact Or.inr (by simp [update, h0])

/-- C1.  After `update` completes, the ball array is sorted by ascending
distance, and every adjacent pair is separated by at least
`diameter - epsilon` (the overlap-resolution pass enforces a full diameter,
and run removal only widens surviving gaps). -/
theorem update_sorted_nonoverlap (c : BallChain) (dt : ℚ) (col : Color)
    (hr : 0 ≤ c.ballRadius) :
    List.Sorted (fun a b : Ball => a.distance ≤ b.distance) (update c dt col).1.balls ∧
    List.Chain' (fun a b : Ball => c.ballRadius * 2 - 2 ≤ b.distance - a.distance)
      (update c dt col).1.balls := by
  have hrad := spawnStep_ballRadius c dt col
  rcases update_balls_shape c dt col with ⟨hb, h0⟩ | hb
  · rw [hb, List.length_eq_zero.mp h0]
    exact ⟨List.sorted_nil, trivial⟩
  · rw [hb, hrad]
    have hpair := pairwise_resolve_scan (c.ballRadius * 2) (c.ballRadius * 2 + 2)
      (by linarith)
      ((moveSegments (spawnStep c dt col).speed ((spawnStep c dt col).speed * 4)
          ((spawnStep c dt col).ballRadius * 2) dt
          (segmentBalls ((spawnStep c dt col).ballRadius * 2 + 2)
            (sortByDistance (spawnStep c dt col).balls))).flatten)
    rw [hrad] at hpair
    constructor
    · exact hpair.imp (fun hab => by linarith)
    · exact (hpair.imp (fun hab => by linarith)).chain'

/-- Witness for C1 at a concrete chain, time step and spawn color. -/
theorem update_sorted_nonoverlap_witness :
    (0 : ℚ) ≤ (witnessChain [⟨0, Color.red, 0, 18⟩]).ballRadius ∧
    (List.Sorted (fun a b : Ball => a.distance ≤ b.distance)
        (update (witnessChain [⟨0, Color.red, 0, 18⟩]) 1 Color.cyan).1.balls ∧
      List.Chain'
        (fun a b : Ball =>
          (witnessChain [⟨0, Color.red, 0, 18⟩]).ballRadius * 2 - 2 ≤
            b.distance - a.distance)
        (update (witnessChain [⟨0, Color.red, 0, 18⟩]) 1 Color.cyan).1.balls) :=
  ⟨by norm_num [witnessChain],
    update_sorted_nonoverlap (witnessChain [⟨0, Color.red, 0, 18⟩]) 1 Color.cyan
      (by norm_num [witnessChain])⟩

/-- C9.  The failure signal and the victory signal are mutually exclusive:
`hasReachedEnd` needs a last live ball, which contradicts emptiness. -/
theorem signals_mutually_exclusive (c : BallChain) :
    ¬ hasReachedEnd c ∨ ¬ (c.isEmpty ∧ hasFinishedSpawning c) := by
  cases hb : c.balls with
  | nil =>
    left
    unfold hasReachedEnd
    rw [hb]
    simp
  | cons b rest =>
    right
    rintro ⟨he, -⟩
    unfold BallChain.isEmpty at he
    rw [hb] at he
    simp at he

lemma update_scalar_fields (c : BallChain) (dt : ℚ) (col : Color) :
    (update c dt col).1.spawnedCount = (spawnStep c dt col).spawnedCount ∧
    (update c dt col).1.spawnTimer = (spawnStep c dt col).spawnTimer := by
  by_cases h0 : (spawnStep c dt col).balls.length = 0 <;> simp [update, h0]

/-- C8.  Spawning is paced by the timer: per `update` call at most one ball
spawns no matter the size of `dt`; under the cap, the ball spawns exactly
when the accumulated timer reaches the interval (and the timer resets), and
otherwise the timer just accumulates; at level 1 the interval is `36/55`. -/
theorem spawn_pacing (c : BallChain) (dt : ℚ) (col : Color) :
    (update c dt col).1.spawnedCount ≤ c.spawnedCount + 1 ∧
    (c.spawnedCount < c.maxBalls → c.spawnInterval ≤ c.spawnTimer + dt →
      (update c dt col).1.spawnedCount = c.spawnedCount + 1 ∧
      (update c dt col).1.spawnTimer = 0) ∧
    (c.spawnedCount < c.maxBalls → c.spawnTimer + dt < c.spawnInterval →
      (update c dt col).1.spawnedCount = c.spawnedCount ∧
      (update c dt col).1.spawnTimer = c.spawnTimer + dt) ∧
    (c.maxBalls ≤ c.spawnedCount →
      (update c dt col).1.spawnedCount = c.spawnedCount ∧
      (update c dt col).1.spawnTimer = c.spawnTimer) ∧
    (∀ (p : GamePath) (col2 : Color), (BallChain.init p 1 col2).spawnInterval = 36 / 55) := by
  obtain ⟨hcount, htimer⟩ := update_scalar_fields c dt col
  rw [hcount, htimer]
  unfold spawnStep
  refine ⟨?_, ?_, ?_, ?_, ?_⟩
  · split
    · dsimp only
      split
      · simp [spawnBall]
      · simp
    · simp
  · intro hlt hint
    rw [if_pos hlt]
    dsimp only
    rw [if_pos (by simpa using hint)]
    simp [spawnBall]
  · intro hlt hint
    rw [if_pos hlt]
    dsimp only
    rw [if_neg (by simpa using not_le_of_lt hint)]
    exact ⟨rfl, rfl⟩
  · intro hge
    rw [if_neg (by omega)]
    exact ⟨rfl, rfl⟩
  · intro p col2
    norm_num [BallChain.init, preSpawnBalls]

/-- Witness for C8: at the concrete level-1 chain with one spawned ball and
`dt = 1`, exactly one ball spawns and the timer resets. -/
theorem spawn_pacing_witness :
    (update (witnessChain [⟨0, Color.red, 0, 18⟩]) 1 Color.cyan).1.spawnedCount =
      (witnessChain [⟨0, Color.red, 0, 18⟩]).spawnedCount + 1 ∧
    (update (witnessChain [⟨0, Color.red, 0, 18⟩]) 1 Color.cyan).1.spawnTimer = 0 :=
  (spawn_pacing (witnessChain [⟨0, Color.red, 0, 18⟩]) 1 Color.cyan).2.1
    (by decide) (by norm_num [witnessChain])

lemma countRun_run (col : Color) (thr : ℚ) (t : List Ball) :
    ∀ (post : List Ball) (prev : Ball),
      (∀ x ∈ t, x.color = col) →
      List.Chain (fun a b => b.distance - a.distance ≤ thr) prev t →
      (∀ c0 ∈ post.head?,
        ¬ (c0.color = col ∧ c0.distance - (t.getLastD prev).distance ≤ thr)) →
      countRun col thr prev (t ++ post) = t.length := by
  induction t with
  | nil =>
    intro post prev _ _ hbreak
    cases post with
    | nil => simp [countRun]
    | cons c0 rest =>
      have hb := hbreak c0 (by simp)
      simp only [List.getLastD_nil] at hb
      simp only [List.nil_append, countRun, List.length_nil]
      rw [if_neg hb]
  | cons a t ih =>
    intro post prev hcol hchain hbreak
    rw [List.chain_cons] at hchain
    simp only [List.cons_append, countRun]
    rw [if_pos ⟨hcol a (List.mem_cons_self _ _), hchain.1⟩]
    simp only [List.append_eq]
    simp only [List.getLastD_cons] at hbreak
    rw [ih post a (fun x hx => hcol x (List.mem_cons_of_mem _ hx)) hchain.2 hbreak]
    simp

lemma matchScanFuel_congr (thr : ℚ) (f1 : Nat) :
    ∀ (l : List Ball) (f2 : Nat), l.length ≤ f1 → l.length ≤ f2 →
      matchScanFuel thr f1 l = matchScanFuel thr f2 l := by
  induction f1 with
  | zero =>
    intro l f2 h1 _
    rw [List.length_eq_zero.mp (Nat.le_zero.mp h1)]
    cases f2 <;> simp [matchScanFuel]
  | succ f ih =>
    intro l f2 h1 h2
    cases l with
    | nil => cases f2 <;> simp [matchScanFuel]
    | cons b rest =>
      obtain ⟨f2', rfl⟩ : ∃ f2', f2 = f2' + 1 := ⟨f2 - 1, by simp at h2; omega⟩
      simp only [matchScanFuel]
      have hlen1 : (rest.drop (countRun b.color thr b rest)).length ≤ f := by
        simp only [List.length_drop]
        simp only [List.length_cons] at h1
        omega
      have hlen2 : (rest.drop (countRun b.color thr b rest)).length ≤ f2' := by
        simp only [List.length_drop]
        simp only [List.length_cons] at h2
        omega
      rw [ih (rest.drop (countRun b.color thr b rest)) f2' hlen1 hlen2]

lemma matchScan_cons_run (thr : ℚ) (b : Ball) (t post : List Ball)
    (hcol : ∀ x ∈ t, x.color = b.color)
    (hchain : List.Chain (fun a b2 => b2.distance - a.distance ≤ thr) b t)
    (hbreak : ∀ c0 ∈ post.head?,
      ¬ (c0.color = b.color ∧ c0.distance - (t.getLastD b).distance ≤ thr)) :
    matchScan thr (b :: t ++ post) =
      if 3 ≤ t.length + 1 then
        ((matchScan thr post).1, (t.length + 1) :: (matchScan thr post).2)
      else (b :: t ++ (matchScan thr post).1, (matchScan thr post).2) := by
  unfold matchScan
  rw [show (b :: t ++ post).length = (t.length + post.length) + 1 from by
    simp [List.length_cons, List.length_append]]
  simp only [matchScanFuel]
  simp only [List.append_eq]
  rw [countRun_run b.color thr t post b hcol hchain hbreak]
  rw [List.drop_left, List.take_left]
  rw [matchScanFuel_congr thr (t.length + post.length) post post.length
    (by omega) (le_refl _)]

/-- C2.  The whole-chain match scan removes exactly the maximal same-color
contact-contiguous runs of length at least 3, each with a single callback
reporting the full run length, scanning on from the same position: a run of
2 survives, a run of 3 is removed entirely, a run of 5 yields one callback
with count 5. -/
theorem matchScan_run_decomposition (thr : ℚ) (rs : List (List Ball))
    (h : RunDecomp thr rs) :
    matchScan thr rs.flatten =
      ((rs.filter fun r => decide (r.length < 3)).flatten,
       (rs.filter fun r => decide (3 ≤ r.length)).map List.length) := by
  induction rs with
  | nil => simp [matchScan, matchScanFuel]
  | cons r rs' ih =>
    obtain ⟨hruns, hbreaks⟩ := h
    obtain ⟨hne, hcolor, hchain'⟩ := hruns r (List.mem_cons_self _ _)
    obtain ⟨b, t, rfl⟩ : ∃ b t, r = b :: t := by
      cases r with
      | nil => exact absurd rfl hne
      | cons b t => exact ⟨b, t, rfl⟩
    have hcol : ∀ x ∈ t, x.color = b.color := by
      intro x hx
      simpa using hcolor x (List.mem_cons_of_mem _ hx)
    have hchain : List.Chain (fun a b2 => b2.distance - a.distance ≤ thr) b t := hchain'
    have hbreak : ∀ c0 ∈ rs'.flatten.head?,
        ¬ (c0.color = b.color ∧ c0.distance - (t.getLastD b).distance ≤ thr) := by
      cases rs' with
      | nil => simp
      | cons r2 rs'' =>
        obtain ⟨hne2, _, _⟩ := hruns r2 (List.mem_cons_of_mem _ (List.mem_cons_self _ _))
        obtain ⟨c0, t2, rfl⟩ : ∃ c0 t2, r2 = c0 :: t2 := by
          cases r2 with
          | nil => exact absurd rfl hne2
          | cons c0 t2 => exact ⟨c0, t2, rfl⟩
        have hbrk : runBreak thr (b :: t) (c0 :: t2) :=
          (List.chain'_cons'.mp hbreaks).1 _ rfl
        intro c0' hc0'
        have hc0eq : c0' = c0 := by
          have := hc0'
          simp [List.flatten_cons] at this
          exact this.symm
        subst hc0eq
        have hlastcol : (t.getLastD b).color = b.color := by
          simpa using hcolor (t.getLastD b) (List.getLastD_mem_cons t b)
        unfold runBreak at hbrk
        rcases hbrk with h1 | h2 | h3 | h4
        · exact absurd h1 (by simp)
        · exact absurd h2 (by simp)
        · simp only [List.headD_cons, List.getLastD_cons] at h3
          rw [hlastcol] at h3
          rintro ⟨hcc, -⟩
          exact h3 hcc
        · simp only [List.headD_cons, List.getLastD_cons] at h4
          rintro ⟨-, hgap⟩
          linarith
    rw [List.flatten_cons, matchScan_cons_run thr b t rs'.flatten
      hcol hchain hbreak]
    have ihh : matchScan thr rs'.flatten =
        ((rs'.filter fun r => decide (r.length < 3)).flatten,
         (rs'.filter fun r => decide (3 ≤ r.length)).map List.length) :=
      ih ⟨fun r hr => hruns r (List.mem_cons_of_mem _ hr), hbreaks.tail⟩
    rw [ihh]
    by_cases h3 : 3 ≤ t.length + 1
    · rw [if_pos h3]
      have hf1 : ((b :: t) :: rs').filter (fun r => decide (r.length < 3)) =
          rs'.filter fun r => decide (r.length < 3) := by
        rw [List.filter_cons_of_neg]
        simp only [List.length_cons, decide_eq_true_eq]
        omega
      have hf2 : ((b :: t) :: rs').filter (fun r => decide (3 ≤ r.length)) =
          (b :: t) :: rs'.filter fun r => decide (3 ≤ r.length) := by
        rw [List.filter_cons_of_pos]
        simp only [List.length_cons, decide_eq_true_eq]
        omega
      rw [hf1, hf2]
      simp [List.length_cons]
    · rw [if_neg h3]
      have hf1 : ((b :: t) :: rs').filter (fun r => decide (r.length < 3)) =
          (b :: t) :: rs'.filter fun r => decide (r.length < 3) := by
        rw [List.filter_cons_of_pos]
        simp only [List.length_cons, decide_eq_true_eq]
        omega
      have hf2 : ((b :: t) :: rs').filter (fun r => decide (3 ≤ r.length)) =
          rs'.filter fun r => decide (3 ≤ r.length) := by
        rw [List.filter_cons_of_neg]
        simp only [List.length_cons, decide_eq_true_eq]
        omega
      rw [hf1, hf2]
      simp [List.flatten_cons]

/-- Witness for C2: a 2-run, a 3-run and a 5-run in one chain; the scan keeps
the 2-run and fires exactly two callbacks, with counts 3 and 5. -/
theorem matchScan_run_decomposition_witness :
    RunDecomp 38
      [[⟨0, Color.red, 0, 18⟩, ⟨1, Color.red, 36, 18⟩],
       [⟨2, Color.cyan, 100, 18⟩, ⟨3, Color.cyan, 136, 18⟩, ⟨4, Color.cyan, 172, 18⟩],
       [⟨5, Color.green, 300, 18⟩, ⟨6, Color.green, 336, 18⟩, ⟨7, Color.green, 372, 18⟩,
        ⟨8, Color.green, 408, 18⟩, ⟨9, Color.green, 444, 18⟩]] ∧
    matchScan 38
      [⟨0, Color.red, 0, 18⟩, ⟨1, Color.red, 36, 18⟩,
       ⟨2, Color.cyan, 100, 18⟩, ⟨3, Color.cyan, 136, 18⟩, ⟨4, Color.cyan, 172, 18⟩,
       ⟨5, Color.green, 300, 18⟩, ⟨6, Color.green, 336, 18⟩, ⟨7, Color.green, 372, 18⟩,
       ⟨8, Color.green, 408, 18⟩, ⟨9, Color.green, 444, 18⟩] =
      ([⟨0, Color.red, 0, 18⟩, ⟨1, Color.red, 36, 18⟩], [3, 5]) := by
  have hdecomp : RunDecomp 38
      [[⟨0, Color.red, 0, 18⟩, ⟨1, Color.red, 36, 18⟩],
       [⟨2, Color.cyan, 100, 18⟩, ⟨3, Color.cyan, 136, 18⟩, ⟨4, Color.cyan, 172, 18⟩],
       [⟨5, Color.green, 300, 18⟩, ⟨6, Color.green, 336, 18⟩, ⟨7, Color.green, 372, 18⟩,
        ⟨8, Color.green, 408, 18⟩, ⟨9, Color.green, 444, 18⟩]] := by
    constructor
    · intro r hr
      fin_cases hr <;>
        exact ⟨by simp, by decide,
          by simp only [List.chain'_cons, List.chain'_singleton]; norm_num⟩
    · simp only [List.chain'_cons, List.chain'_singleton, runBreak]
      exact ⟨Or.inr (Or.inr (Or.inl (by decide))),
        Or.inr (Or.inr (Or.inl (by decide))), trivial⟩
  refine ⟨hdecomp, ?_⟩
  have h := matchScan_run_decomposition 38
      [[⟨0, Color.red, 0, 18⟩, ⟨1, Color.red, 36, 18⟩],
       [⟨2, Color.cyan, 100, 18⟩, ⟨3, Color.cyan, 136, 18⟩, ⟨4, Color.cyan, 172, 18⟩],
       [⟨5, Color.green, 300, 18⟩, ⟨6, Color.green, 336, 18⟩, ⟨7, Color.green, 372, 18⟩,
        ⟨8, Color.green, 408, 18⟩, ⟨9, Color.green, 444, 18⟩]] hdecomp
  exact h

lemma moveRest_velocities (attr diam dt : ℚ) (rest : List (List Ball)) :
    ∀ prevTail : Ball, [] ∉ rest →
      moveRest attr diam dt prevTail rest =
        List.zipWith
          (fun v s => s.map fun b => { b with distance := b.distance + v * dt })
          (velsFrom attr diam dt prevTail.distance rest) rest := by
  induction rest with
  | nil => intro prevTail _; simp [moveRest, velsFrom]
  | cons seg rest ih =>
    intro prevTail hne
    cases seg with
    | nil => exact absurd (List.mem_cons_self _ _) hne
    | cons h t =>
      simp only [moveRest, velsFrom, List.zipWith_cons_cons, List.map_cons]
      refine congrArg (List.cons _) ?_
      have := ih { (t.getLastD h) with
            distance := (t.getLastD h).distance +
              -(attr * (1 / 2 + min ((h.distance - prevTail.distance - diam) / 50) (3 / 2))) * dt }
        (fun hmem => hne (List.mem_cons_of_mem _ hmem))
      simpa using this

/-- C3.  The motion step is segment-wise uniform: `moveSegments` applies to
every ball of each segment a single per-segment velocity as `distance +=
velocity * dt`, the first segment at the base speed and every later segment
at `-(attraction * (0.5 + min (gap/50, 1.5)))`, the gap measured from the
previous segment's trailing token after that segment has moved. -/
theorem moveSegments_velocities (speed attr diam dt : ℚ) (ss : List (List Ball))
    (hne : [] ∉ ss) :
    moveSegments speed attr diam dt ss =
      List.zipWith
        (fun v s => s.map fun b => { b with distance := b.distance + v * dt })
        (segVelocities speed attr diam dt ss) ss := by
  cases ss with
  | nil => simp [moveSegments, segVelocities]
  | cons seg rest =>
    cases seg with
    | nil => exact absurd (List.mem_cons_self _ _) hne
    | cons h t =>
      simp only [moveSegments, segVelocities, List.zipWith_cons_cons, List.map_cons]
      refine congrArg (List.cons _) ?_
      have := moveRest_velocities attr diam dt rest
        { (t.getLastD h) with distance := (t.getLastD h).distance + speed * dt }
        (fun hmem => hne (List.mem_cons_of_mem _ hmem))
      simpa using this

/-- Witness for C3 at three concrete singleton segments. -/
theorem moveSegments_velocities_witness :
    ([] ∉ [[(⟨0, Color.red, 0, 18⟩ : Ball)], [⟨1, Color.cyan, 100, 18⟩],
        [⟨2, Color.green, 200, 18⟩]]) ∧
    moveSegments 55 220 36 (1 / 10)
        [[⟨0, Color.red, 0, 18⟩], [⟨1, Color.cyan, 100, 18⟩],
         [⟨2, Color.green, 200, 18⟩]] =
      List.zipWith
        (fun (v : ℚ) (s : List Ball) =>
          s.map fun b => { b with distance := b.distance + v * (1 / 10) })
        (segVelocities 55 220 36 (1 / 10)
          [[⟨0, Color.red, 0, 18⟩], [⟨1, Color.cyan, 100, 18⟩],
           [⟨2, Color.green, 200, 18⟩]])
        [[⟨0, Color.red, 0, 18⟩], [⟨1, Color.cyan, 100, 18⟩],
         [⟨2, Color.green, 200, 18⟩]] :=
  ⟨by decide,
    moveSegments_velocities 55 220 36 (1 / 10)
      [[⟨0, Color.red, 0, 18⟩], [⟨1, Color.cyan, 100, 18⟩],
       [⟨2, Color.green, 200, 18⟩]] (by decide)⟩

lemma chain_pushApart (diam : ℚ) (l : List Ball) :
    ∀ prev : Ball,
      List.Chain (fun a b => a.distance + diam ≤ b.distance) prev
        (pushApart diam prev l) := by
  induction l with
  | nil => intro prev; simp [pushApart]
  | cons b rest ih =>
    intro prev
    simp only [pushApart, List.chain_cons]
    constructor
    · split
      · simp
      · next h => linarith [le_of_not_lt h]
    · exact ih _

lemma pushApart_length (diam : ℚ) (l : List Ball) :
    ∀ prev : Ball, (pushApart diam prev l).length = l.length := by
  induction l with
  | nil => intro prev; simp [pushApart]
  | cons b rest ih => intro prev; simp [pushApart, ih]

lemma pushApart_key (diam : ℚ) (l : List Ball) :
    ∀ prev : Ball, (pushApart diam prev l).map Ball.key = l.map Ball.key := by
  induction l with
  | nil => intro prev; simp [pushApart]
  | cons b rest ih =>
    intro prev
    simp only [pushApart, List.map_cons, ih]
    congr 1
    split <;> rfl

lemma insertBall_balls (c : BallChain) (proj : Projectile) (hitIndex : Nat)
    (h : hitIndex < c.balls.length) :
    (insertBall c proj hitIndex).1.balls =
      (c.balls.take hitIndex ++
        [⟨c.nextId, proj.color, (c.balls.getD hitIndex default).distance, c.ballRadius⟩]) ++
      pushApart (c.ballRadius * 2)
        ⟨c.nextId, proj.color, (c.balls.getD hitIndex default).distance, c.ballRadius⟩
        (c.balls.drop hitIndex) := by
  have hlen : (c.balls.take hitIndex).length = hitIndex := by
    simp [List.length_take]
    omega
  have htake : (spliceInsert hitIndex
      ⟨c.nextId, proj.color, (c.balls.getD hitIndex default).distance, c.ballRadius⟩
      c.balls).take (hitIndex + 1) =
      c.balls.take hitIndex ++
        [⟨c.nextId, proj.color, (c.balls.getD hitIndex default).distance, c.ballRadius⟩] := by
    unfold spliceInsert
    rw [List.take_append_eq_append_take, List.take_of_length_le (by omega), hlen]
    simp
  have hgetD : (spliceInsert hitIndex
      ⟨c.nextId, proj.color, (c.balls.getD hitIndex default).distance, c.ballRadius⟩
      c.balls).getD hitIndex default =
      ⟨c.nextId, proj.color, (c.balls.getD hitIndex default).distance, c.ballRadius⟩ := by
    unfold spliceInsert
    rw [List.getD_eq_getElem?_getD, List.getElem?_append_right (by omega), hlen]
    simp
  have hdrop : (spliceInsert hitIndex
      ⟨c.nextId, proj.color, (c.balls.getD hitIndex default).distance, c.ballRadius⟩
      c.balls).drop (hitIndex + 1) = c.balls.drop hitIndex := by
    unfold spliceInsert
    rw [List.drop_append_eq_append_drop, List.drop_of_length_le (by omega), hlen]
    simp
  show (spliceInsert hitIndex _ c.balls).take (hitIndex + 1) ++ _ = _
  rw [htake, hgetD, hdrop]

/-- C4.  `insertBall` at a valid index returns `hitIndex`, inserts a ball
with the projectile's color at exactly the hit ball's distance, shifts the
balls at or after `hitIndex` up one slot (their identities and colors are
preserved), and pushes forward from the insertion point so that from there
on every adjacent pair is separated by at least a diameter. -/
theorem insertBall_spec (c : BallChain) (proj : Projectile) (hitIndex : Nat)
    (h : hitIndex < c.balls.length) :
    (insertBall c proj hitIndex).2 = hitIndex ∧
    (insertBall c proj hitIndex).1.balls.length = c.balls.length + 1 ∧
    (insertBall c proj hitIndex).1.balls.take hitIndex = c.balls.take hitIndex ∧
    (insertBall c proj hitIndex).1.balls.getD hitIndex default =
      ⟨c.nextId, proj.color, (c.balls.getD hitIndex default).distance, c.ballRadius⟩ ∧
    (insertBall c proj hitIndex).1.balls.map Ball.key =
      (c.balls.map Ball.key).take hitIndex ++
        (c.nextId, proj.color, c.ballRadius) :: (c.balls.map Ball.key).drop hitIndex ∧
    List.Chain' (fun a b => a.distance + c.ballRadius * 2 ≤ b.distance)
      ((insertBall c proj hitIndex).1.balls.drop hitIndex) := by
  have hb := insertBall_balls c proj hitIndex h
  have hlen : (c.balls.take hitIndex).length = hitIndex := by
    simp [List.length_take]
    omega
  have hlen1 : (c.balls.take hitIndex ++
      [(⟨c.nextId, proj.color, (c.balls.getD hitIndex default).distance,
        c.ballRadius⟩ : Ball)]).length = hitIndex + 1 := by
    simp [hlen]
  refine ⟨rfl, ?_, ?_, ?_, ?_, ?_⟩
  · rw [hb]
    simp only [List.length_append, hlen1, pushApart_length, List.length_drop]
    omega
  · rw [hb, List.append_assoc, List.take_append_eq_append_take,
      List.take_of_length_le (by omega), hlen]
    simp
  · rw [hb, List.getD_eq_getElem?_getD, List.getElem?_append_left (by omega)]
    rw [List.getElem?_append_right (by omega), hlen]
    simp
  · rw [hb]
    simp only [List.map_append, List.map_cons, pushApart_key, List.map_take,
      List.map_drop, List.map_nil]
    simp [Ball.key]
  · rw [hb, List.append_assoc, List.drop_append_eq_append_drop,
      List.drop_of_length_le (by omega), hlen]
    simp only [Nat.sub_self, List.drop_zero, List.nil_append, List.cons_append,
      List.nil_append]
    rw [List.chain'_cons']
    constructor
    · intro y hy
      have hchain := chain_pushApart (c.ballRadius * 2) (c.balls.drop hitIndex)
        ⟨c.nextId, proj.color, (c.balls.getD hitIndex default).distance, c.ballRadius⟩
      cases hp : pushApart (c.ballRadius * 2)
          ⟨c.nextId, proj.color, (c.balls.getD hitIndex default).distance, c.ballRadius⟩
          (c.balls.drop hitIndex) with
      | nil => rw [hp] at hy; simp at hy
      | cons z zs =>
        rw [hp] at hy
        simp at hy
        rw [hp, List.chain_cons] at hchain
        rw [← hy]
        exact hchain.1
    · have hchain := chain_pushApart (c.ballRadius * 2) (c.balls.drop hitIndex)
        ⟨c.nextId, proj.color, (c.balls.getD hitIndex default).distance, c.ballRadius⟩
      exact List.Chain'.tail (l := _ :: _) hchain

/-- Witness for C4: inserting a red projectile at index 1 of
`[red@0, cyan@36]` returns index 1, grows the chain to 3 and leaves no
overlap from the insertion point on. -/
theorem insertBall_spec_witness :
    1 < (witnessChain [⟨0, Color.red, 0, 18⟩, ⟨1, Color.cyan, 36, 18⟩]).balls.length ∧
    (insertBall (witnessChain [⟨0, Color.red, 0, 18⟩, ⟨1, Color.cyan, 36, 18⟩])
        ⟨0, 0, 9, Color.red⟩ 1).2 = 1 ∧
    (insertBall (witnessChain [⟨0, Color.red, 0, 18⟩, ⟨1, Color.cyan, 36, 18⟩])
        ⟨0, 0, 9, Color.red⟩ 1).1.balls.length = 3 ∧
    List.Chain'
      (fun a b =>
        a.distance +
          (witnessChain [⟨0, Color.red, 0, 18⟩, ⟨1, Color.cyan, 36, 18⟩]).ballRadius * 2 ≤
            b.distance)
      ((insertBall (witnessChain [⟨0, Color.red, 0, 18⟩, ⟨1, Color.cyan, 36, 18⟩])
          ⟨0, 0, 9, Color.red⟩ 1).1.balls.drop 1) := by
  have h := insertBall_spec (witnessChain [⟨0, Color.red, 0, 18⟩, ⟨1, Color.cyan, 36, 18⟩])
    ⟨0, 0, 9, Color.red⟩ 1 (by simp [witnessChain])
  refine ⟨by simp [witnessChain], h.1, ?_, h.2.2.2.2.2⟩
  rw [h.2.1]
  simp [witnessChain]

/-- C5.  `getPointAt` boundary behaviour: on a path whose first two points
are `(0,0)` and `(10,0)`, a negative distance extrapolates backward along
the initial tangent (`getPointAt (-10)` lands at `(-10, 0)`); and for any
distance at or beyond the total length it returns exactly the last sample
point, with the final segment's tangent angle. -/
theorem getPointAt_boundary (p : GamePath) :
    (p.points.getD 0 ⟨0, 0⟩ = ⟨0, 0⟩ → p.points.getD 1 ⟨0, 0⟩ = ⟨10, 0⟩ →
      (getPointAt p (-10)).1.x = -10 ∧ (getPointAt p (-10)).1.y = 0) ∧
    (∀ d : ℝ, 0 ≤ p.totalLength → p.totalLength ≤ d →
      (getPointAt p d).1 = p.points.getD (p.points.length - 1) ⟨0, 0⟩ ∧
      (getPointAt p d).2 =
        atan2
          ((p.points.getD (p.points.length - 1) ⟨0, 0⟩).y -
            (p.points.getD (p.points.length - 2) ⟨0, 0⟩).y)
          ((p.points.getD (p.points.length - 1) ⟨0, 0⟩).x -
            (p.points.getD (p.points.length - 2) ⟨0, 0⟩).x)) := by
  constructor
  · intro h0 h1
    unfold getPointAt
    rw [if_pos (by norm_num : (-10 : ℝ) < 0)]
    rw [h0, h1]
    dsimp only
    have harg : atan2 ((Pt.mk 10 0).y - (Pt.mk 0 0).y) ((Pt.mk 10 0).x - (Pt.mk 0 0).x) = 0 := by
      show atan2 (0 - 0) (10 - 0) = 0
      norm_num
      show Complex.arg ⟨10, 0⟩ = 0
      have hc : (⟨10, 0⟩ : ℂ) = ((10 : ℝ) : ℂ) := rfl
      rw [hc, Complex.arg_ofReal_of_nonneg (by norm_num)]
    rw [harg]
    norm_num
  · intro d h0 hd
    unfold getPointAt
    rw [if_neg (by linarith), if_pos hd]
    exact ⟨rfl, rfl⟩

/-- Witness for C5 on the two-point sample path, at distances `-10` and
`totalLength + 100`. -/
theorem getPointAt_boundary_witness :
    samplePath.points.getD 0 ⟨0, 0⟩ = ⟨0, 0⟩ ∧
    samplePath.points.getD 1 ⟨0, 0⟩ = ⟨10, 0⟩ ∧
    (0 : ℝ) ≤ samplePath.totalLength ∧
    samplePath.totalLength ≤ samplePath.totalLength + 100 ∧
    (getPointAt samplePath (-10)).1.x = -10 ∧
    (getPointAt samplePath (-10)).1.y = 0 ∧
    (getPointAt samplePath (samplePath.totalLength + 100)).1 =
      samplePath.points.getD (samplePath.points.length - 1) ⟨0, 0⟩ := by
  have h := getPointAt_boundary samplePath
  have h1 := h.1 rfl rfl
  have h2 := (h.2 (samplePath.totalLength + 100) (by norm_num [samplePath])
    (by norm_num [samplePath])).1
  exact ⟨rfl, rfl, by norm_num [samplePath], by norm_num [samplePath], h1.1, h1.2, h2⟩

lemma sameColorCount_append_all (col : Color) (l : List Ball) :
    ∀ post : List Ball, (∀ b ∈ l, b.color = col) →
      (∀ c0 ∈ post.head?, c0.color ≠ col) →
      sameColorCount col (l ++ post) = l.length := by
  induction l with
  | nil =>
    intro post _ hpost
    cases post with
    | nil => simp [sameColorCount]
    | cons c0 rest =>
      simp only [List.nil_append, sameColorCount, List.length_nil]
      rw [if_neg (hpost c0 (by simp))]
  | cons b rest ih =>
    intro post hall hpost
    simp only [List.cons_append, sameColorCount, List.length_cons]
    rw [if_pos (hall b (List.mem_cons_self _ _))]
    simp only [List.append_eq]
    rw [ih post (fun x hx => hall x (List.mem_cons_of_mem _ hx)) hpost]

lemma checkMatches_run (c : BallChain) (pre run post : List Ball) (col : Color)
    (idx : Nat) (hballs : c.balls = pre ++ run ++ post)
    (hcol : ∀ b ∈ run, b.color = col)
    (hpre : ∀ a ∈ pre.getLast?, a.color ≠ col)
    (hpost : ∀ b ∈ post.head?, b.color ≠ col)
    (hlo : pre.length ≤ idx) (hhi : idx < pre.length + run.length) :
    (3 ≤ run.length →
      checkMatches c (idx : Int) = ({ c with balls := pre ++ post }, run.length)) ∧
    (run.length < 3 → checkMatches c (idx : Int) = (c, 0)) := by
  have hlen : c.balls.length = pre.length + run.length + post.length := by
    simp [hballs]
    omega
  have hinb : idx < c.balls.length := by omega
  have hk : idx - pre.length < run.length := by omega
  have hcolor : (c.balls.getD idx default).color = col := by
    rw [hballs, List.getD_eq_getElem?_getD, List.append_assoc,
      List.getElem?_append_right (by omega : pre.length ≤ idx),
      List.getElem?_append_left hk, List.getElem?_eq_getElem hk]
    simp only [Option.getD_some]
    exact hcol _ (List.getElem_mem hk)
  have htake : c.balls.take idx = pre ++ run.take (idx - pre.length) := by
    rw [hballs, List.append_assoc, List.take_append_eq_append_take,
      List.take_of_length_le (by omega : pre.length ≤ idx),
      List.take_append_eq_append_take,
      show idx - pre.length - run.length = 0 from by omega,
      List.take_zero, List.append_nil]
  have hleft : sameColorCount col ((c.balls.take idx).reverse) = idx - pre.length := by
    rw [htake, List.reverse_append,
      sameColorCount_append_all col _ _
        (fun b hb => hcol b (List.take_subset _ _ (List.mem_reverse.mp hb)))
        (by
          rw [List.head?_reverse]
          exact hpre)]
    rw [List.length_reverse, List.length_take]
    omega
  have hdrop : c.balls.drop (idx + 1) = run.drop (idx - pre.length + 1) ++ post := by
    rw [hballs, List.append_assoc, List.drop_append_eq_append_drop,
      List.drop_of_length_le (by omega : pre.length ≤ idx + 1),
      List.drop_append_eq_append_drop,
      show idx + 1 - pre.length - run.length = 0 from by omega,
      List.drop_zero, List.nil_append,
      show idx + 1 - pre.length = idx - pre.length + 1 from by omega]
  have hright : sameColorCount col (c.balls.drop (idx + 1)) =
      run.length - (idx - pre.length) - 1 := by
    rw [hdrop,
      sameColorCount_append_all col _ _
        (fun b hb => hcol b (List.drop_subset _ _ hb)) hpost,
      List.length_drop]
    omega
  have hnotout : ¬ ((idx : Int) < 0 ∨ (c.balls.length : Int) ≤ (idx : Int)) := by
    push_neg
    constructor
    · positivity
    · exact_mod_cast hinb
  constructor
  · intro h3
    unfold checkMatches
    rw [if_neg hnotout]
    simp only [Int.toNat_natCast, hcolor, hleft, hright]
    rw [if_pos (by omega)]
    rw [show idx - (idx - pre.length) = pre.length from by omega]
    rw [show 1 + (idx - pre.length) + (run.length - (idx - pre.length) - 1) =
      run.length from by omega]
    have htake2 : c.balls.take pre.length = pre := by
      rw [hballs, List.append_assoc]
      exact List.take_left' rfl
    have hdrop2 : c.balls.drop (pre.length + run.length) = post := by
      rw [hballs]
      have hpr : (pre ++ run).length = pre.length + run.length := by simp
      rw [List.drop_left' hpr]
    rw [htake2, hdrop2]
  · intro h3
    unfold checkMatches
    rw [if_neg hnotout]
    simp only [Int.toNat_natCast, hcolor, hleft, hright]
    rw [if_neg (by omega)]

/-- C6.  `checkMatches` returns 0 and leaves the chain untouched on an
out-of-bounds pivot (negative or past the end); on an in-bounds pivot it
extends left and right from the pivot by color, removes the whole run and
returns its length when the run reaches 3, and otherwise is an atomic
no-op returning 0. -/
theorem checkMatches_spec (c : BallChain) :
    (∀ s : Int, s < 0 ∨ (c.balls.length : Int) ≤ s → checkMatches c s = (c, 0)) ∧
    (∀ (pre run post : List Ball) (col : Color) (idx : Nat),
      c.balls = pre ++ run ++ post →
      (∀ b ∈ run, b.color = col) →
      (∀ a ∈ pre.getLast?, a.color ≠ col) →
      (∀ b ∈ post.head?, b.color ≠ col) →
      pre.length ≤ idx → idx < pre.length + run.length →
      (3 ≤ run.length →
        checkMatches c (idx : Int) = ({ c with balls := pre ++ post }, run.length)) ∧
      (run.length < 3 → checkMatches c (idx : Int) = (c, 0))) := by
  constructor
  · intro s hs
    unfold checkMatches
    rw [if_pos hs]
  · intro pre run post col idx hballs hcol hpre hpost hlo hhi
    exact checkMatches_run c pre run post col idx hballs hcol hpre hpost hlo hhi

/-- Witness for C6: on `[red@0, red@36, cyan@100]`, pivot `-1` is a no-op
returning 0, and pivot 1 sits in a red run of length 2, so `checkMatches`
is again a no-op returning 0. -/
theorem checkMatches_spec_witness :
    checkMatches (witnessChain
      [⟨0, Color.red, 0, 18⟩, ⟨1, Color.red, 36, 18⟩, ⟨2, Color.cyan, 100, 18⟩]) (-1) =
      (witnessChain
        [⟨0, Color.red, 0, 18⟩, ⟨1, Color.red, 36, 18⟩, ⟨2, Color.cyan, 100, 18⟩], 0) ∧
    checkMatches (witnessChain
      [⟨0, Color.red, 0, 18⟩, ⟨1, Color.red, 36, 18⟩, ⟨2, Color.cyan, 100, 18⟩]) (1 : Nat) =
      (witnessChain
        [⟨0, Color.red, 0, 18⟩, ⟨1, Color.red, 36, 18⟩, ⟨2, Color.cyan, 100, 18⟩], 0) := by
  have h := checkMatches_spec (witnessChain
    [⟨0, Color.red, 0, 18⟩, ⟨1, Color.red, 36, 18⟩, ⟨2, Color.cyan, 100, 18⟩])
  refine ⟨h.1 (-1) (by left; decide), ?_⟩
  have h2 := (h.2 [] [⟨0, Color.red, 0, 18⟩, ⟨1, Color.red, 36, 18⟩]
    [⟨2, Color.cyan, 100, 18⟩] Color.red 1 rfl (by decide) (by simp) (by decide)
    (by decide) (by decide)).2 (by decide)
  exact h2

lemma matchScan_no_contact (thr : ℚ) (l : List Ball)
    (h : List.Chain' (fun a b => thr < b.distance - a.distance) l) :
    matchScan thr l = (l, []) := by
  induction l with
  | nil => simp [matchScan, matchScanFuel]
  | cons b rest ih =>
    have hk : countRun b.color thr b rest = 0 := by
      cases rest with
      | nil => simp [countRun]
      | cons c0 rest2 =>
        simp only [countRun]
        rw [if_neg]
        rintro ⟨-, hgap⟩
        have := (List.chain'_cons.mp h).1
        linarith
    unfold matchScan
    simp only [List.length_cons, matchScanFuel, hk]
    rw [if_neg (by omega)]
    simp only [List.take_zero, List.drop_zero, List.nil_append]
    have := ih h.tail
    unfold matchScan at this
    rw [this]
    simp

/-- C10.  The pivot-based `checkMatches` never looks at distance gaps: an
in-bounds pivot inside a same-color index-run of length at least 3 removes
the run whatever the gaps are, while the whole-chain scan of `update`
removes nothing from a chain whose adjacent gaps all exceed the contact
threshold. -/
theorem checkMatches_ignores_gaps (c : BallChain) (pre run post : List Ball)
    (col : Color) (idx : Nat) (hballs : c.balls = pre ++ run ++ post)
    (hcol : ∀ b ∈ run, b.color = col)
    (hpre : ∀ a ∈ pre.getLast?, a.color ≠ col)
    (hpost : ∀ b ∈ post.head?, b.color ≠ col)
    (hlo : pre.length ≤ idx) (hhi : idx < pre.length + run.length)
    (h3 : 3 ≤ run.length) :
    checkMatches c (idx : Int) = ({ c with balls := pre ++ post }, run.length) ∧
    (∀ thr : ℚ, List.Chain' (fun a b => thr < b.distance - a.distance) c.balls →
      matchScan thr c.balls = (c.balls, [])) :=
  ⟨(checkMatches_run c pre run post col idx hballs hcol hpre hpost hlo hhi).1 h3,
    fun thr hgap => matchScan_no_contact thr c.balls hgap⟩

/-- Witness for C10: `[red@0, red@1000, red@5000]` is nowhere in contact
(gaps 1000 and 4000 against threshold 38), yet `checkMatches 1` removes all
three balls; the whole-chain scan removes nothing. -/
theorem checkMatches_ignores_gaps_witness :
    checkMatches (witnessChain
        [⟨0, Color.red, 0, 18⟩, ⟨1, Color.red, 1000, 18⟩, ⟨2, Color.red, 5000, 18⟩])
        (1 : Nat) =
      ({ witnessChain
          [⟨0, Color.red, 0, 18⟩, ⟨1, Color.red, 1000, 18⟩, ⟨2, Color.red, 5000, 18⟩]
          with balls := [] ++ [] }, 3) ∧
    matchScan 38
        [⟨0, Color.red, 0, 18⟩, ⟨1, Color.red, 1000, 18⟩, ⟨2, Color.red, 5000, 18⟩] =
      ([⟨0, Color.red, 0, 18⟩, ⟨1, Color.red, 1000, 18⟩, ⟨2, Color.red, 5000, 18⟩],
        []) := by
  have h := checkMatches_ignores_gaps (witnessChain
      [⟨0, Color.red, 0, 18⟩, ⟨1, Color.red, 1000, 18⟩, ⟨2, Color.red, 5000, 18⟩])
    [] [⟨0, Color.red, 0, 18⟩, ⟨1, Color.red, 1000, 18⟩, ⟨2, Color.red, 5000, 18⟩] []
    Color.red 1 rfl (by decide) (by simp) (by simp) (by decide) (by decide) (by decide)
  refine ⟨h.1, ?_⟩
  have h2 := h.2 38 (by
    simp only [witnessChain, List.chain'_cons, List.chain'_singleton]
    norm_num)
  simpa [witnessChain] using h2

lemma checkCollisionFrom_none (path : GamePath) (p : Projectile) (l : List Ball) :
    ∀ i0 : Nat, (∀ b ∈ l, ¬ ballHit path p b) →
      checkCollisionFrom path p i0 l = none := by
  induction l with
  | nil => intro i0 _; simp [checkCollisionFrom]
  | cons b rest ih =>
    intro i0 hnone
    simp only [checkCollisionFrom]
    split
    · next hcond => exact absurd hcond (hnone b (List.mem_cons_self _ _))
    · exact ih (i0 + 1) (fun x hx => hnone x (List.mem_cons_of_mem _ hx))

lemma checkCollisionFrom_first (path : GamePath) (p : Projectile) (l1 : List Ball) :
    ∀ (i0 : Nat) (b : Ball) (l2 : List Ball),
      (∀ x ∈ l1, ¬ ballHit path p x) → ballHit path p b →
      checkCollisionFrom path p i0 (l1 ++ b :: l2) =
        some ⟨i0 + l1.length, b, (getPointAt path (b.distance : ℝ)).1.x,
          (getPointAt path (b.distance : ℝ)).1.y⟩ := by
  induction l1 with
  | nil =>
    intro i0 b l2 _ hb
    simp only [List.nil_append, checkCollisionFrom]
    split
    · simp
    · next hcond => exact absurd hb hcond
  | cons a l1 ih =>
    intro i0 b l2 hnone hb
    simp only [List.cons_append, checkCollisionFrom]
    split
    · next hcond => exact absurd hcond (hnone a (List.mem_cons_self _ _))
    · simp only [List.append_eq]
      rw [show i0 + (a :: l1).length = i0 + 1 + l1.length from by
        simp only [List.length_cons]
        omega]
      exact ih (i0 + 1) b l2 (fun x hx => hnone x (List.mem_cons_of_mem _ hx)) hb

/-- C7.  `checkCollision` scans the balls in ascending-index order, testing
the Euclidean distance between the projectile and each ball's curve position
against the sum of the radii; it returns the first overlapping index (not
the closest) with that ball and contact position, and `none` when no ball
overlaps. -/
theorem checkCollision_first_hit (c : BallChain) (p : Projectile) :
    ((∀ b ∈ c.balls, ¬ ballHit c.path p b) → checkCollision c p = none) ∧
    (∀ j : Nat, j < c.balls.length →
      ballHit c.path p (c.balls.getD j default) →
      (∀ i : Nat, i < j → ¬ ballHit c.path p (c.balls.getD i default)) →
      checkCollision c p =
        some ⟨j, c.balls.getD j default,
          (getPointAt c.path ((c.balls.getD j default).distance : ℝ)).1.x,
          (getPointAt c.path ((c.balls.getD j default).distance : ℝ)).1.y⟩) := by
  constructor
  · intro h
    exact checkCollisionFrom_none c.path p c.balls 0 h
  · intro j hj hhit hbefore
    have hsplit : c.balls = c.balls.take j ++ c.balls.getD j default :: c.balls.drop (j + 1) := by
      rw [List.getD_eq_getElem _ _ hj, ← List.drop_eq_getElem_cons hj]
      exact (List.take_append_drop j c.balls).symm
    have hpre : ∀ x ∈ c.balls.take j, ¬ ballHit c.path p x := by
      intro x hx
      obtain ⟨i, hi, hxeq⟩ := List.mem_iff_getElem.mp hx
      have hilen : i < j := by
        have := hi
        simp [List.length_take] at this
        omega
      have hxi : x = c.balls.getD i default := by
        rw [← hxeq, List.getElem_take, List.getD_eq_getElem _ _ (by omega)]
      rw [hxi]
      exact hbefore i hilen
    have h := checkCollisionFrom_first c.path p (c.balls.take j) 0
      (c.balls.getD j default) (c.balls.drop (j + 1)) hpre hhit
    rw [← hsplit] at h
    rw [show 0 + (c.balls.take j).length = j from by simp [List.length_take]; omega] at h
    unfold checkCollision
    exact h

lemma sample_point_at_five : (getPointAt samplePath (((5 : ℚ) : ℝ))).1 = ⟨5, 0⟩ := by
  have h5 : (((5 : ℚ) : ℝ)) = (5 : ℝ) := by norm_num
  rw [h5]
  unfold getPointAt
  rw [if_neg (by norm_num : ¬ (5 : ℝ) < 0)]
  rw [if_neg (by norm_num [samplePath] : ¬ samplePath.totalLength ≤ (5 : ℝ))]
  show (findSegment samplePath.points 5 0 0 samplePath.segmentLengths).1 = _
  simp only [samplePath]
  unfold findSegment
  rw [if_pos (by norm_num : (5 : ℝ) ≤ 0 + 10)]
  simp only [List.getD_cons_zero, List.getD_cons_succ]
  norm_num [Pt.mk.injEq]

/-- Witness for C7: on the straight sample path the single ball at arclength
5 sits at `(5, 0)`; a projectile at `(5, 0)` with radius 1 overlaps it and
`checkCollision` returns index 0 with that ball and contact position. -/
theorem checkCollision_first_hit_witness :
    ballHit samplePath ⟨5, 0, 1, Color.cyan⟩ ⟨0, Color.red, 5, 18⟩ ∧
    checkCollision { witnessChain [⟨0, Color.red, 5, 18⟩] with path := samplePath }
        ⟨5, 0, 1, Color.cyan⟩ =
      some ⟨0, ⟨0, Color.red, 5, 18⟩,
        (getPointAt samplePath (((5 : ℚ) : ℝ))).1.x,
        (getPointAt samplePath (((5 : ℚ) : ℝ))).1.y⟩ := by
  have hhit : ballHit samplePath ⟨5, 0, 1, Color.cyan⟩ ⟨0, Color.red, 5, 18⟩ := by
    unfold ballHit
    dsimp only
    rw [sample_point_at_five]
    norm_num [Real.sqrt_zero]
  refine ⟨hhit, ?_⟩
  have h := (checkCollision_first_hit
      { witnessChain [⟨0, Color.red, 5, 18⟩] with path := samplePath }
      ⟨5, 0, 1, Color.cyan⟩).2 0 (by simp [witnessChain]) hhit
    (fun i hi => absurd hi (by omega))
  exact h
